import Mathlib

/-!
Shallow embedding of `src/main.rs` of the `git-server` repository: a small
HTTP API over bare Git repositories (create a repository, probe it, list
branches, materialize a HEAD tree into a node graph with blame-derived
provenance, fetch a blob at a branch, serve files on the dumb path).

Conventions of the embedding:
* Object ids (`git2::Oid`) are modelled as their canonical hex `String`;
  `Oid::to_string` is therefore the identity.
* Fallible git2 library calls are modelled as `Except GitError _` values
  stored in a `Repo` / `Env` structure of accessor functions (the object
  store is an external collaborator; the structure records what each call
  would return).
* A Rust `.unwrap()` on a `None` value is a panic, not a returned error;
  handler outcomes are therefore a three-way `RunResult`:
  success, returned `git2` error, or panic.
* Filesystem paths are `String`s; `Path::join` of relative non-empty
  segments is string concatenation with `"/"`.
-/

namespace GitServer

/-- A `git2::Error`: the only observable the program uses is its message
(via the `Display` impl in `Error::into_response`). -/
structure GitError where
  msg : String
  deriving DecidableEq, Repr

/-- `git2::ObjectType`, restricted to the variants the program compares
against (`entry.kind()` yields an `Option<ObjectType>`). -/
inductive ObjKind where
  | blob
  | tree
  | commitLink
  | other
  deriving DecidableEq, Repr

/-- `git2::BranchType`. -/
inductive BranchType where
  | local
  | remote
  deriving DecidableEq, Repr

/-- One blame hunk, as consumed by `process_tree`: only
`final_commit_id()` is read. -/
structure Hunk where
  finalCommitId : String
  deriving DecidableEq, Repr

/-- The result of running a handler body that may `?`-return a
`git2::Error` or panic on an `unwrap`. -/
inductive RunResult (α : Type) where
  | ok : α → RunResult α
  | gitErr : GitError → RunResult α
  | panicked : RunResult α
  deriving DecidableEq, Repr

/-- Discriminator: is this outcome a success? -/
def RunResult.isOk {α : Type} : RunResult α → Bool
  | .ok _ => true
  | _ => false

/-- Discriminator: is this outcome a returned `git2` error? -/
def RunResult.isGitErr {α : Type} : RunResult α → Bool
  | .gitErr _ => true
  | _ => false

/-- A resolved tree object: either a subtree (with its entries, in the
tree's native stored order) or a non-tree object (blob, commit link, ...).
Each entry records what the git2 tree-entry accessors return:
`name()` (`none` models a non-UTF8 name), `id()`, `kind()`, and the
result of `to_object(&repo)`. -/
inductive TObj : Type where
  | tree : List (Option String × String × Option ObjKind × Except GitError TObj) → TObj
  | nonTree : TObj
  deriving Repr

/-- A tree entry: `name()`, `id()`, `kind()`, `to_object(&repo)`. -/
abbrev TEntry : Type := Option String × String × Option ObjKind × Except GitError TObj

def TEntry.name (e : TEntry) : Option String := e.1

def TEntry.oid (e : TEntry) : String := e.2.1

def TEntry.kind (e : TEntry) : Option ObjKind := e.2.2.1

def TEntry.toObj (e : TEntry) : Except GitError TObj := e.2.2.2

/-- A commit object, as the program's accessors see it: `message()`
(`none` models a non-UTF8 message), `committer().when().seconds()`, and
`tree()`. -/
structure Commit where
  message : Option String
  committerWhen : Int
  tree : Except GitError (List TEntry)

/-- A branch, as the program's accessors see it: `name()` yields a
fallible `Option<&str>` (`.ok none` models a non-UTF8 short name); the
branch also records its `BranchType` and what `get().peel_to_commit()`
returns. -/
structure Branch where
  shortName : Except GitError (Option String)
  btype : BranchType
  peelToCommit : Except GitError Commit

/-- An open repository: each field records what the corresponding git2
call returns.  `headTree` is `head()?.peel_to_tree()?` collapsed into one
fallible accessor; `branchesAll` is the sequence the `branches(None)`
iterator yields (all branches, local and remote, in the store's
iteration order, each item itself fallible). -/
structure Repo where
  headTree : Except GitError (List TEntry)
  branchesAll : List (Except GitError Branch)
  findBranch : String → BranchType → Except GitError Branch
  blameFile : String → Except GitError (List Hunk)
  findCommit : String → Except GitError Commit
  findBlob : String → Except GitError (List Nat)

/-- The ambient filesystem: `Repository::open_bare` keyed by path, and
`fs::read` for the dumb protocol (`none` models any io error). -/
structure Env where
  openBare : String → Except GitError Repo
  fsRead : String → Option (List Nat)

/-- The `Error` enum of `main.rs`. -/
inductive Error where
  | git : GitError → Error
  | notFound : Error
  deriving DecidableEq, Repr

/-- An HTTP response as far as the program shapes it: a status code and a
body. -/
structure Response where
  status : Nat
  body : String
  deriving DecidableEq, Repr

/-- `impl IntoResponse for Error` (main.rs:91-102): a git error becomes a
500 with the formatted message, `NotFound` becomes a bare 404. -/
def Error.intoResponse : Error → Response
  | .git e => ⟨500, "Something went wrong when: " ++ e.msg⟩
  | .notFound => ⟨404, ""⟩

/-- The `Node` enum of `main.rs` (the JSON node graph). -/
inductive Node : Type where
  | file : (name : String) → (commit : String) → (message : String) →
      (modified : Int) → Node
  | directory : (name : String) → (childs : List Node) → Node
  deriving Repr

/-- `Path::join` for the relative segments the program builds:
`Path::new("").join(s) = s`, otherwise interpose `"/"`. -/
def pathJoin (p s : String) : String :=
  if p = "" then s else p ++ "/" ++ s

/-- The `PathBuf::from("repos").join(&user).join(&name)` prefix shared by
every handler. -/
def reposPath (user name : String) : String :=
  pathJoin (pathJoin "repos" user) name

/-- Split a character list at every `'/'` (helper for path
componentization, the effect of `str::split('/')`). -/
def splitSlash : List Char → List (List Char)
  | [] => [[]]
  | c :: cs =>
    let r := splitSlash cs
    if c = '/' then [] :: r
    else (c :: r.headD []) :: r.tail

/-- The `'/'`-separated components of a path string (how
`Path::new(file_path)` is consumed component-wise). -/
def splitPath (s : String) : List String :=
  (splitSlash s.data).map List.asString

/-- Rejoin path components with `'/'` (inverse of `splitPath`). -/
def joinPath : List String → String
  | [] => ""
  | [s] => s
  | s :: rest => s ++ "/" ++ joinPath rest

/-- The characters strictly before the last `'.'` of a component, when a
`'.'` occurs at all. -/
def beforeLastDot : List Char → Option (List Char)
  | [] => none
  | c :: cs =>
    match beforeLastDot cs with
    | some stem => some (c :: stem)
    | none => if c = '.' then some [] else none

mutual

/-- The body of the `for entry in tree` loop of `process_tree`
(main.rs:162-192): unwrap the entry name (panic on `None`), join the
path, resolve the object (`?` on error); a tree recurses into a
`Directory` node, anything else runs blame at the full path, unwraps
hunk 0 (panic on `None`), looks up the final commit, unwraps its message
(panic on `None`) and builds a `File` node. -/
def process_entry (repo : Repo) (pre : String) : TEntry → RunResult Node
  | (none, _, _, _) => .panicked
  | (some _, _, _, .error g) => .gitErr g
  | (some name, _, _, .ok (.tree sub)) =>
    match process_tree repo sub (pathJoin pre name) with
    | .ok childs => .ok (.directory name childs)
    | .gitErr g => .gitErr g
    | .panicked => .panicked
  | (some name, _, _, .ok .nonTree) =>
    match repo.blameFile (pathJoin pre name) with
    | .error g => .gitErr g
    | .ok hunks =>
      match hunks.get? 0 with
      | none => .panicked
      | some hunk =>
        match repo.findCommit hunk.finalCommitId with
        | .error g => .gitErr g
        | .ok commit =>
          match commit.message with
          | none => .panicked
          | some message =>
            .ok (.file name hunk.finalCommitId message commit.committerWhen)

/-- `process_tree` (main.rs:156-195), with the `&mut Vec<Node>` out
parameter rendered as the returned list: entries are processed in native
order and the first error or panic aborts the whole traversal. -/
def process_tree (repo : Repo) (entries : List TEntry) (pre : String) :
    RunResult (List Node) :=
  match entries with
  | [] => .ok []
  | e :: rest =>
    match process_entry repo pre e with
    | .ok node =>
      match process_tree repo rest pre with
      | .ok ns => .ok (node :: ns)
      | .gitErr g => .gitErr g
      | .panicked => .panicked
    | .gitErr g => .gitErr g
    | .panicked => .panicked

end

/-- `fetch_repo` (main.rs:139-154): open the repository at
`repos/<user>/<name>`, peel HEAD to a tree, process it, and wrap the
collected children in a synthetic `Directory` named `"root"`. -/
def fetch_repo (env : Env) (user name : String) : RunResult Node :=
  match env.openBare (reposPath user name) with
  | .error g => .gitErr g
  | .ok repo =>
    match repo.headTree with
    | .error g => .gitErr g
    | .ok entries =>
      match process_tree repo entries "" with
      | .ok root => .ok (.directory "root" root)
      | .gitErr g => .gitErr g
      | .panicked => .panicked

/-- `handle_git` (main.rs:104-110): the handler only derives the
repository path (and logs it); it performs no repository access and
unconditionally returns the empty success value. -/
def handle_git (_env : Env) (user name : String) : Except Error Unit :=
  let _path := reposPath user name
  .ok ()

/-- `handle_dumb_protocol` (main.rs:112-122): read the literal file at
`repos/<user>/<name>/<path>`; any `fs::read` failure is mapped to
`Error::NotFound`. -/
def handle_dumb_protocol (env : Env) (user name path : String) :
    Except Error (List Nat) :=
  match env.fsRead (pathJoin (reposPath user name) path) with
  | none => .error .notFound
  | some bytes => .ok bytes

/-- The loop of `get_branches` (main.rs:206-210): each iterator item is
`?`-unwrapped, then `branch.name()?` is `?`-unwrapped and its inner
`Option` is `.unwrap()`-ed (panic on a non-UTF8 short name). -/
def branches_loop : List (Except GitError Branch) → RunResult (List String)
  | [] => .ok []
  | .error g :: _ => .gitErr g
  | .ok b :: rest =>
    match b.shortName with
    | .error g => .gitErr g
    | .ok none => .panicked
    | .ok (some n) =>
      match branches_loop rest with
      | .ok ns => .ok (n :: ns)
      | .gitErr g => .gitErr g
      | .panicked => .panicked

/-- `Repository::branches(filter)` of git2: with `None` ALL branches
(local and remote) are yielded; with `Some t` only branches of type `t`. -/
def branches_filter (bs : List (Except GitError Branch)) :
    Option BranchType → List (Except GitError Branch)
  | none => bs
  | some t => bs.filter (fun item =>
      match item with
      | .ok b => b.btype == t
      | .error _ => true)

/-- `get_branches` (main.rs:197-213): open the repository and collect the
short names of the branches yielded by `repo.branches(None)`. -/
def get_branches (env : Env) (user name : String) : RunResult (List String) :=
  match env.openBare (reposPath user name) with
  | .error g => .gitErr g
  | .ok repo => branches_loop (branches_filter repo.branchesAll none)

/-- `git2::Tree::get_path` (`git_tree_entry_bypath`): walk the
slash-split components; a missing component, or an intermediate
component that does not resolve to a tree, is an object-store error. -/
def tree_get_path : List TEntry → List String → Except GitError TEntry
  | _, [] => .error ⟨"invalid path"⟩
  | es, [c] =>
    match es.find? (fun e => e.name == some c) with
    | some e => .ok e
    | none => .error ⟨"the path does not exist in the given tree"⟩
  | es, c :: rest =>
    match es.find? (fun e => e.name == some c) with
    | none => .error ⟨"the path does not exist in the given tree"⟩
    | some e =>
      match e.toObj with
      | .error g => .error g
      | .ok .nonTree => .error ⟨"the path does not exist in the given tree"⟩
      | .ok (.tree sub) => tree_get_path sub rest

/-- `read_blob_from_branch` (main.rs:229-249): resolve the local branch,
peel to its tip commit, take its tree, look the path up, reject any
entry whose kind is not `Blob`, and return the blob's bytes. -/
def read_blob_from_branch (repo : Repo) (filePath : String)
    (branchName : String) : Except GitError (List Nat) :=
  match repo.findBranch branchName BranchType.local with
  | .error g => .error g
  | .ok branch =>
    match branch.peelToCommit with
    | .error g => .error g
    | .ok commit =>
      match commit.tree with
      | .error g => .error g
      | .ok entries =>
        match tree_get_path entries (splitPath filePath) with
        | .error g => .error g
        | .ok entry =>
          if entry.kind ≠ some ObjKind.blob then
            .error ⟨"Path does not point to a blob"⟩
          else
            match repo.findBlob entry.oid with
            | .error g => .error g
            | .ok content => .ok content

/-- `get_blob` (main.rs:215-227): open the repository (a failure there is
an `Error::Git`), then map ANY `read_blob_from_branch` error to
`Error::NotFound`. -/
def get_blob (env : Env) (user name branch path : String) :
    Except Error (List Nat) :=
  match env.openBare (reposPath user name) with
  | .error e => .error (.git e)
  | .ok repo =>
    match read_blob_from_branch repo path branch with
    | .error _ => .error .notFound
    | .ok blob => .ok blob

/-- `Path::file_stem` of one path component: the portion before the
final dot, except that a component without a dot, or whose only dot is in
first position (".gitignore"), is its own stem. -/
def fileStem (s : String) : String :=
  match beforeLastDot s.data with
  | none => s
  | some [] => s
  | some stem => stem.asString

/-- `PathBuf::set_extension("git")` for paths whose final component is a
plain file name: truncate the final component to its file stem and append
`".git"`. -/
def set_extension_git (p : String) : String :=
  let parts := splitPath p
  let fname := parts.getLastD ""
  joinPath (parts.dropLast ++ [fileStem fname ++ ".git"])

/-- The on-disk path `create_repo` provisions (main.rs:69-70):
`PathBuf::from("repos").join(&user).join(&name)` followed by
`set_extension("git")`. -/
def create_repo_path (user name : String) : String :=
  set_extension_git (reposPath user name)

/-- One `create_repo` call (main.rs:66-77) against a filesystem state
listing the paths already provisioned: `Repository::init_bare` is run at
the derived path; the call returns the state with that path recorded,
together with the path it targeted. -/
def create_repo (created : List String) (user name : String) :
    List String × String :=
  let path := create_repo_path user name
  (path :: created, path)

/-- A sequence of `create_repo` calls, threading the filesystem state. -/
def run_creates : List String → List (String × String) → List String
  | created, [] => created
  | created, (u, n) :: rest => run_creates (create_repo created u n).1 rest

mutual

/-- Nesting depth of a materialized node: a file is depth 0, a directory
is one more than the deepest child. -/
def Node.depth : Node → Nat
  | .file _ _ _ _ => 0
  | .directory _ cs => 1 + childsDepth cs

/-- Deepest depth among a list of nodes. -/
def childsDepth : List Node → Nat
  | [] => 0
  | n :: rest => max (Node.depth n) (childsDepth rest)

end

mutual

/-- Nesting depth of a resolved tree object: a non-tree is depth 0, a
tree is one more than the deepest entry below it. -/
def TObj.depth : TObj → Nat
  | .nonTree => 0
  | .tree es => 1 + entriesDepth es

/-- Deepest depth among a tree's entries. -/
def entriesDepth : List TEntry → Nat
  | [] => 0
  | e :: rest => max (entryObjDepth e.2.2.2) (entriesDepth rest)

/-- Depth of the object a tree entry resolves to (an unresolvable entry
counts as 0; it never occurs in a successful materialization). -/
def entryObjDepth : Except GitError TObj → Nat
  | .error _ => 0
  | .ok o => TObj.depth o

end

/-- How one tree entry corresponds to one materialized node, at path
prefix `pre` inside repository `repo`: a subtree entry becomes a
`Directory` of the same name whose children correspond index-wise to the
subtree's entries, and any other entry becomes a `File` of the same name
whose provenance fields come from hunk 0 of the blame of the entry's
full path — the commit field is the hunk's final commit id, the message
field is that commit's message, and the modified field is that commit's
committer timestamp. -/
inductive EntryMatches (repo : Repo) : String → TEntry → Node → Prop where
  | file : ∀ (pre : String) (e : TEntry) (nm : String) (hunks : List Hunk)
      (hunk : Hunk) (commit : Commit) (m : String),
      e.name = some nm →
      e.toObj = .ok .nonTree →
      repo.blameFile (pathJoin pre nm) = .ok hunks →
      hunks.get? 0 = some hunk →
      repo.findCommit hunk.finalCommitId = .ok commit →
      commit.message = some m →
      EntryMatches repo pre e
        (.file nm hunk.finalCommitId m commit.committerWhen)
  | dir : ∀ (pre : String) (e : TEntry) (nm : String) (sub : List TEntry)
      (childs : List Node),
      e.name = some nm →
      e.toObj = .ok (.tree sub) →
      sub.length = childs.length →
      (∀ (i : Nat) (hi : i < sub.length) (hj : i < childs.length),
        EntryMatches repo (pathJoin pre nm) (sub.get ⟨i, hi⟩)
          (childs.get ⟨i, hj⟩)) →
      EntryMatches repo pre e (.directory nm childs)

/-- A repository all of whose accessors fail (their contents are
irrelevant to the uses below). -/
def failRepo : Repo :=
  ⟨.error ⟨"no head"⟩, [], fun _ _ => .error ⟨"branch not found"⟩,
   fun _ => .error ⟨"no blame"⟩, fun _ => .error ⟨"no commit"⟩,
   fun _ => .error ⟨"no blob"⟩⟩

/-- An environment with no openable repositories and no readable files. -/
def envEmpty : Env :=
  ⟨fun _ => .error ⟨"failed to resolve path"⟩, fun _ => none⟩

/-- A tree entry whose name is absent (a non-UTF8 name). -/
def unnamedEntry : TEntry := (none, "badoid", some .blob, .ok .nonTree)

/-- The commit every blame of `smallRepo` attributes changes to. -/
def commitA : Commit := ⟨some "add files\n", 1700000000, .error ⟨"no tree"⟩⟩

/-- The sole blame hunk of `smallRepo`. -/
def hunkA : Hunk := ⟨"abc123"⟩

/-- A HEAD tree holding `a.txt` and `dir/nested.txt`. -/
def smallTreeEntries : List TEntry :=
  [(some "a.txt", "oidA", some .blob, .ok .nonTree),
   (some "dir", "oidD", some .tree,
     .ok (.tree [(some "nested.txt", "oidN", some .blob, .ok .nonTree)]))]

/-- A healthy repository: HEAD peels to `smallTreeEntries`, blame always
yields `hunkA`, whose final commit is `commitA`. -/
def smallRepo : Repo :=
  ⟨.ok smallTreeEntries, [], fun _ _ => .error ⟨"branch not found"⟩,
   fun _ => .ok [hunkA], fun _ => .ok commitA, fun _ => .error ⟨"no blob"⟩⟩

/-- An environment serving `smallRepo` at every path. -/
def envSmall : Env := ⟨fun _ => .ok smallRepo, fun _ => none⟩

/-- The node list `smallRepo`'s traversal produces. -/
def smallChilds : List Node :=
  [.file "a.txt" "abc123" "add files\n" 1700000000,
   .directory "dir" [.file "nested.txt" "abc123" "add files\n" 1700000000]]

/-- A repository whose HEAD tree holds a single file whose blame has zero
hunks (as happens for an empty file). -/
def emptyBlameRepo : Repo :=
  ⟨.ok [(some "empty.txt", "oidE", some .blob, .ok .nonTree)], [],
   fun _ _ => .error ⟨"branch not found"⟩, fun _ => .ok [],
   fun _ => .error ⟨"no commit"⟩, fun _ => .error ⟨"no blob"⟩⟩

/-- An environment serving `emptyBlameRepo` at every path. -/
def envEmptyBlame : Env := ⟨fun _ => .ok emptyBlameRepo, fun _ => none⟩

/-- A repository with one local branch `main` and one remote-tracking
branch `origin/main`, in that iteration order. -/
def repoTwoBranches : Repo :=
  ⟨.error ⟨"no head"⟩,
   [.ok ⟨.ok (some "main"), .local, .error ⟨"unborn"⟩⟩,
    .ok ⟨.ok (some "origin/main"), .remote, .error ⟨"unborn"⟩⟩],
   fun _ _ => .error ⟨"branch not found"⟩, fun _ => .error ⟨"no blame"⟩,
   fun _ => .error ⟨"no commit"⟩, fun _ => .error ⟨"no blob"⟩⟩

/-- An environment serving `repoTwoBranches` at every path. -/
def envTwoBranches : Env := ⟨fun _ => .ok repoTwoBranches, fun _ => none⟩

/-- Tip-tree entries for the blob-retrieval repository: a blob `a.txt`
and a subdirectory `dir`. -/
def tipEntries : List TEntry :=
  [(some "a.txt", "oidA", some .blob, .ok .nonTree),
   (some "dir", "oidD", some .tree, .ok (.tree []))]

/-- The tip commit of branch `main` of `repoBlobStore`. -/
def commitTip : Commit := ⟨some "tip\n", 0, .ok tipEntries⟩

/-- Local branch `main`, peeling to `commitTip`. -/
def brMain : Branch := ⟨.ok (some "main"), .local, .ok commitTip⟩

/-- A repository on which every branch lookup finds `brMain`. -/
def repoBlobStore : Repo :=
  ⟨.error ⟨"no head"⟩, [.ok brMain], fun _ _ => .ok brMain,
   fun _ => .error ⟨"no blame"⟩, fun _ => .error ⟨"no commit"⟩,
   fun _ => .ok [104, 105]⟩

/-- An environment serving `repoBlobStore` at every path. -/
def envBlob : Env := ⟨fun _ => .ok repoBlobStore, fun _ => none⟩

/-- Stated from the spec's words, for comparison with `get_branches`: the
short names of the repository's LOCAL branches only, in iteration
order. -/
def local_branch_short_names (repo : Repo) : List String :=
  repo.branchesAll.filterMap (fun item =>
    match item with
    | .ok b =>
      match b.shortName with
      | .ok (some nm) => if b.btype = .local then some nm else none
      | _ => none
    | .error _ => none)

/-- Soundness of a successful traversal: when `process_tree` succeeds,
the produced nodes correspond one-to-one and in order to the entries,
each matching per `EntryMatches`, and the deepest produced node is
exactly as deep as the deepest entry. -/
theorem process_tree_ok_sound (repo : Repo) :
    ∀ (entries : List TEntry) (pre : String) (nodes : List Node),
      process_tree repo entries pre = .ok nodes →
      entries.length = nodes.length ∧
      (∀ (i : Nat) (hi : i < entries.length) (hj : i < nodes.length),
        EntryMatches repo pre (entries.get ⟨i, hi⟩) (nodes.get ⟨i, hj⟩)) ∧
      childsDepth nodes = entriesDepth entries := by
  intro entries pre
  refine process_tree.induct repo
    (fun pre e => ∀ node, process_entry repo pre e = .ok node →
      EntryMatches repo pre e node ∧ Node.depth node = entryObjDepth e.toObj)
    (fun entries pre => ∀ nodes, process_tree repo entries pre = .ok nodes →
      entries.length = nodes.length ∧
      (∀ (i : Nat) (hi : i < entries.length) (hj : i < nodes.length),
        EntryMatches repo pre (entries.get ⟨i, hi⟩) (nodes.get ⟨i, hj⟩)) ∧
      childsDepth nodes = entriesDepth entries)
    ?_ ?_ ?_ ?_ ?_ ?_ ?_ ?_ ?_ ?_ ?_ ?_ ?_ ?_ ?_ ?_ entries pre
  · intro pre o k t node h
    simp [process_entry] at h
  · intro pre nm o k g node h
    simp [process_entry] at h
  · intro pre nm o k sub childs hsub ih node h
    simp only [process_entry, hsub] at h
    obtain rfl := RunResult.ok.inj h
    obtain ⟨hlen, hidx, hdep⟩ := ih childs hsub
    refine ⟨EntryMatches.dir pre _ nm sub childs rfl rfl hlen hidx, ?_⟩
    simp [Node.depth, TEntry.toObj, entryObjDepth, TObj.depth, hdep]
  · intro pre nm o k sub g hsub ih node h
    simp [process_entry, hsub] at h
  · intro pre nm o k sub hsub ih node h
    simp [process_entry, hsub] at h
  · intro pre nm o k g hblame node h
    simp [process_entry, hblame] at h
  · intro pre nm o k hunks hblame hhunk node h
    simp only [List.get?_eq_getElem?] at hhunk
    simp [process_entry, hblame, hhunk] at h
  · intro pre nm o k hunks hblame hunk hhunk g hfind node h
    simp only [List.get?_eq_getElem?] at hhunk
    simp [process_entry, hblame, hhunk, hfind] at h
  · intro pre nm o k hunks hblame hunk hhunk commit hfind hmsg node h
    simp only [List.get?_eq_getElem?] at hhunk
    simp [process_entry, hblame, hhunk, hfind, hmsg] at h
  · intro pre nm o k hunks hblame hunk hhunk commit hfind m hmsg node h
    simp only [process_entry, hblame, hhunk, hfind, hmsg] at h
    obtain rfl := RunResult.ok.inj h
    refine ⟨EntryMatches.file pre _ nm hunks hunk commit m rfl rfl hblame
      hhunk hfind hmsg, ?_⟩
    simp [Node.depth, TEntry.toObj, entryObjDepth, TObj.depth]
  · intro pre nodes h
    simp only [process_tree] at h
    obtain rfl : ([] : List Node) = nodes := by
      cases h' : nodes <;> simp [h'] at h ⊢
    refine ⟨rfl, ?_, rfl⟩
    intro i hi hj
    exact absurd hi (by simp)
  · intro pre e rest node hnode childs hrest ih1 ih2 nodes h
    simp only [process_tree, hnode, hrest] at h
    obtain rfl := RunResult.ok.inj h
    obtain ⟨hm, hd⟩ := ih1 node hnode
    obtain ⟨hlen, hidx, hdep⟩ := ih2 childs hrest
    refine ⟨by simp [hlen], ?_, ?_⟩
    · intro i hi hj
      match i with
      | 0 => exact hm
      | i + 1 =>
        exact hidx i (by simpa using hi) (by simpa using hj)
    · simp [childsDepth, entriesDepth, hd, hdep, TEntry.toObj]
  · intro pre e rest node hnode g hrest ih1 ih2 nodes h
    simp [process_tree, hnode, hrest] at h
  · intro pre e rest node hnode hrest ih1 ih2 nodes h
    simp [process_tree, hnode, hrest] at h
  · intro pre e rest g hnode ih1 nodes h
    simp [process_tree, hnode] at h
  · intro pre e rest hnode ih1 nodes h
    simp [process_tree, hnode] at h

/-- C1: whenever `fetch_repo` succeeds (HEAD peeled to a tree), the
result is a `Directory` named `"root"` whose children correspond
one-to-one, in the tree's native entry order, to the top-level entries of
the HEAD tree — subtree entries become recursively materialized
`Directory` nodes and every other entry becomes a `File` node (per
`EntryMatches`) — and the output nesting depth equals the tree nesting
depth (offset by one for the synthetic root). -/
theorem fetch_repo_materializes_head_tree (env : Env) (user name : String)
    (node : Node) (h : fetch_repo env user name = .ok node) :
    ∃ (repo : Repo) (entries : List TEntry) (childs : List Node),
      env.openBare (reposPath user name) = .ok repo ∧
      repo.headTree = .ok entries ∧
      node = .directory "root" childs ∧
      entries.length = childs.length ∧
      (∀ (i : Nat) (hi : i < entries.length) (hj : i < childs.length),
        EntryMatches repo "" (entries.get ⟨i, hi⟩) (childs.get ⟨i, hj⟩)) ∧
      Node.depth node = 1 + entriesDepth entries := by
  unfold fetch_repo at h
  cases hopen : env.openBare (reposPath user name) with
  | error g => rw [hopen] at h; simp at h
  | ok repo =>
    rw [hopen] at h
    simp only at h
    cases hhead : repo.headTree with
    | error g => rw [hhead] at h; simp at h
    | ok entries =>
      rw [hhead] at h
      simp only at h
      cases hpt : process_tree repo entries "" with
      | gitErr g => rw [hpt] at h; simp at h
      | panicked => rw [hpt] at h; simp at h
      | ok root =>
        rw [hpt] at h
        simp only at h
        obtain rfl := RunResult.ok.inj h
        obtain ⟨hlen, hidx, hdep⟩ := process_tree_ok_sound repo entries "" root hpt
        exact ⟨repo, entries, root, rfl, hhead, rfl, hlen, hidx,
          by simp [Node.depth, hdep]⟩

/-- C2: every non-tree entry that a successful traversal materializes
into a `File` node gets its `commit` field from the final commit id of
blame hunk index 0 at the entry's full path, its `message` field from
that commit's message verbatim, and its `modified` field from that
commit's committer timestamp in seconds. -/
theorem process_tree_file_provenance (repo : Repo) (entries : List TEntry)
    (pre : String) (nodes : List Node)
    (h : process_tree repo entries pre = .ok nodes)
    (i : Nat) (hi : i < entries.length) (nm : String)
    (hname : (entries.get ⟨i, hi⟩).name = some nm)
    (hobj : (entries.get ⟨i, hi⟩).toObj = .ok .nonTree) :
    ∃ (hj : i < nodes.length) (hunks : List Hunk) (hunk : Hunk)
      (commit : Commit) (m : String),
      repo.blameFile (pathJoin pre nm) = .ok hunks ∧
      hunks.get? 0 = some hunk ∧
      repo.findCommit hunk.finalCommitId = .ok commit ∧
      commit.message = some m ∧
      nodes.get ⟨i, hj⟩ = .file nm hunk.finalCommitId m commit.committerWhen := by
  obtain ⟨hlen, hidx, -⟩ := process_tree_ok_sound repo entries pre nodes h
  have hj : i < nodes.length := hlen ▸ hi
  have hm := hidx i hi hj
  refine ⟨hj, ?_⟩
  generalize hget : nodes.get ⟨i, hj⟩ = nd at hm ⊢
  cases hm with
  | file pre e nm' hunks hunk commit m h1 h2 h3 h4 h5 h6 =>
    obtain rfl : nm' = nm := by
      rw [hname] at h1
      exact (Option.some.inj h1).symm
    exact ⟨hunks, hunk, commit, m, h3, h4, h5, h6, rfl⟩
  | dir pre e nm' sub childs h1 h2 h3 h4 =>
    rw [hobj] at h2
    exact absurd (Except.ok.inj h2) (by simp)

/-- Evaluation rule: the empty tree materializes to the empty list. -/
theorem process_tree_nil_eq (repo : Repo) (pre : String) :
    process_tree repo [] pre = .ok [] := by
  simp [process_tree]

/-- Evaluation rule: a cons tree materializes the head then the rest. -/
theorem process_tree_cons_ok_eq (repo : Repo) (pre : String) (e : TEntry)
    (rest : List TEntry) (n : Node) (ns : List Node)
    (h1 : process_entry repo pre e = .ok n)
    (h2 : process_tree repo rest pre = .ok ns) :
    process_tree repo (e :: rest) pre = .ok (n :: ns) := by
  simp [process_tree, h1, h2]

/-- Evaluation rule: a panicking head entry aborts the traversal. -/
theorem process_tree_cons_panicked_eq (repo : Repo) (pre : String)
    (e : TEntry) (rest : List TEntry)
    (h1 : process_entry repo pre e = .panicked) :
    process_tree repo (e :: rest) pre = .panicked := by
  simp [process_tree, h1]

/-- Evaluation rule: an entry with an absent name panics. -/
theorem process_entry_unnamed_eq (repo : Repo) (pre : String) (o : String)
    (k : Option ObjKind) (t : Except GitError TObj) :
    process_entry repo pre (none, o, k, t) = .panicked := by
  simp [process_entry]

/-- Evaluation rule: an entry whose object resolution fails returns that
error. -/
theorem process_entry_err_eq (repo : Repo) (pre : String) (nm o : String)
    (k : Option ObjKind) (g : GitError) :
    process_entry repo pre (some nm, o, k, .error g) = .gitErr g := by
  simp [process_entry]

/-- Evaluation rule for a blob entry whose blame, commit lookup and
message all succeed. -/
theorem process_entry_file_eq (repo : Repo) (pre : String) (nm o : String)
    (k : Option ObjKind) (hunk : Hunk) (hs : List Hunk) (c : Commit)
    (m : String)
    (hblame : repo.blameFile (pathJoin pre nm) = .ok (hunk :: hs))
    (hfind : repo.findCommit hunk.finalCommitId = .ok c)
    (hmsg : c.message = some m) :
    process_entry repo pre (some nm, o, k, .ok .nonTree) =
      .ok (.file nm hunk.finalCommitId m c.committerWhen) := by
  simp [process_entry, hblame, hfind, hmsg]

/-- Evaluation rule for a blob entry whose blame has zero hunks: the
unwrap of hunk index 0 panics. -/
theorem process_entry_empty_blame_eq (repo : Repo) (pre : String)
    (nm o : String) (k : Option ObjKind)
    (hblame : repo.blameFile (pathJoin pre nm) = .ok []) :
    process_entry repo pre (some nm, o, k, .ok .nonTree) = .panicked := by
  simp [process_entry, hblame]

/-- Evaluation rule for a subtree entry whose recursive traversal
succeeds. -/
theorem process_entry_dir_eq (repo : Repo) (pre : String) (nm o : String)
    (k : Option ObjKind) (sub : List TEntry) (cs : List Node)
    (hsub : process_tree repo sub (pathJoin pre nm) = .ok cs) :
    process_entry repo pre (some nm, o, k, .ok (.tree sub)) =
      .ok (.directory nm cs) := by
  simp [process_entry, hsub]

/-- Evaluation rule: `fetch_repo` wraps a successful traversal of the
HEAD tree in the synthetic root directory. -/
theorem fetch_repo_ok_eq (env : Env) (user name : String) (repo : Repo)
    (entries : List TEntry) (root : List Node)
    (hopen : env.openBare (reposPath user name) = .ok repo)
    (hhead : repo.headTree = .ok entries)
    (hpt : process_tree repo entries "" = .ok root) :
    fetch_repo env user name = .ok (.directory "root" root) := by
  unfold fetch_repo
  rw [hopen]
  simp only
  rw [hhead]
  simp only
  rw [hpt]

/-- Evaluation rule: `fetch_repo` on a panicking traversal panics. -/
theorem fetch_repo_panicked_eq (env : Env) (user name : String)
    (repo : Repo) (entries : List TEntry)
    (hopen : env.openBare (reposPath user name) = .ok repo)
    (hhead : repo.headTree = .ok entries)
    (hpt : process_tree repo entries "" = .panicked) :
    fetch_repo env user name = .panicked := by
  unfold fetch_repo
  rw [hopen]
  simp only
  rw [hhead]
  simp only
  rw [hpt]

/-- Concrete evaluation: `smallRepo`'s tree materializes to
`smallChilds`. -/
theorem smallRepo_process_tree_eq :
    process_tree smallRepo smallTreeEntries "" = .ok smallChilds :=
  process_tree_cons_ok_eq smallRepo "" _ _ _ _
    (process_entry_file_eq smallRepo "" "a.txt" "oidA" (some ObjKind.blob)
      hunkA [] commitA "add files\n" rfl rfl rfl)
    (process_tree_cons_ok_eq smallRepo "" _ _ _ _
      (process_entry_dir_eq smallRepo "" "dir" "oidD" (some ObjKind.tree) _ _
        (process_tree_cons_ok_eq smallRepo (pathJoin "" "dir") _ _ _ _
          (process_entry_file_eq smallRepo (pathJoin "" "dir") "nested.txt"
            "oidN" (some ObjKind.blob) hunkA [] commitA "add files\n"
            rfl rfl rfl)
          (process_tree_nil_eq smallRepo (pathJoin "" "dir"))))
      (process_tree_nil_eq smallRepo ""))

/-- Witness for C1: `fetch_repo` on the concrete two-level repository
`smallRepo` succeeds and satisfies the materialization shape property. -/
theorem fetch_repo_materializes_head_tree_witness :
    fetch_repo envSmall "alice" "proj" = .ok (.directory "root" smallChilds) ∧
    (∃ (repo : Repo) (entries : List TEntry) (childs : List Node),
      envSmall.openBare (reposPath "alice" "proj") = .ok repo ∧
      repo.headTree = .ok entries ∧
      Node.directory "root" smallChilds = .directory "root" childs ∧
      entries.length = childs.length ∧
      (∀ (i : Nat) (hi : i < entries.length) (hj : i < childs.length),
        EntryMatches repo "" (entries.get ⟨i, hi⟩) (childs.get ⟨i, hj⟩)) ∧
      Node.depth (Node.directory "root" smallChilds) = 1 + entriesDepth entries) := by
  have h : fetch_repo envSmall "alice" "proj" = .ok (.directory "root" smallChilds) :=
    fetch_repo_ok_eq envSmall "alice" "proj" smallRepo smallTreeEntries
      smallChilds rfl rfl smallRepo_process_tree_eq
  exact ⟨h, fetch_repo_materializes_head_tree envSmall "alice" "proj" _ h⟩

/-- Witness for C2: the provenance property instantiated at entry 0
(`a.txt`) of `smallRepo`'s tree. -/
theorem process_tree_file_provenance_witness :
    ∃ (hj : 0 < smallChilds.length) (hunks : List Hunk) (hunk : Hunk)
      (commit : Commit) (m : String),
      smallRepo.blameFile (pathJoin "" "a.txt") = .ok hunks ∧
      hunks.get? 0 = some hunk ∧
      smallRepo.findCommit hunk.finalCommitId = .ok commit ∧
      commit.message = some m ∧
      smallChilds.get ⟨0, hj⟩ = .file "a.txt" hunk.finalCommitId m commit.committerWhen := by
  exact process_tree_file_provenance smallRepo smallTreeEntries "" smallChilds
    smallRepo_process_tree_eq 0 (by decide) "a.txt" rfl rfl

/-- C3 (amended): an object-store error returned while processing an
entry — all earlier entries having processed fine — aborts the whole
traversal with that single terminal error and no partial node list; an
absent (non-UTF8) entry name, by contrast, aborts with a panic, not a
returned error. -/
theorem process_tree_abort_policy :
    (∀ (repo : Repo) (entries : List TEntry) (pre : String) (i : Nat)
      (hi : i < entries.length) (g : GitError),
      (∀ (j : Nat) (hj : j < entries.length), j < i →
        ∃ nj, process_entry repo pre (entries.get ⟨j, hj⟩) = .ok nj) →
      process_entry repo pre (entries.get ⟨i, hi⟩) = .gitErr g →
      process_tree repo entries pre = .gitErr g) ∧
    (∀ (repo : Repo) (pre : String) (e : TEntry) (rest : List TEntry),
      e.name = none → process_tree repo (e :: rest) pre = .panicked) := by
  constructor
  · intro repo entries pre
    induction entries with
    | nil => intro i hi; exact absurd hi (by simp)
    | cons e rest ih =>
      intro i hi g hok herr
      match i with
      | 0 =>
        have he : process_entry repo pre e = .gitErr g := herr
        simp [process_tree, he]
      | Nat.succ i =>
        obtain ⟨n0, h0⟩ := hok 0 (by simp) (Nat.succ_pos i)
        have h0' : process_entry repo pre e = .ok n0 := h0
        have hi' : i < rest.length := by
          simp only [List.length_cons] at hi; omega
        have hrest := ih i hi' g
          (fun j hj hlt => hok (j + 1)
            (by simp only [List.length_cons]; omega) (by omega))
          herr
        simp [process_tree, h0', hrest]
  · intro repo pre e rest hname
    obtain ⟨n1, o, k, t⟩ := e
    obtain rfl : n1 = none := hname
    simp [process_tree, process_entry]

/-- Witness for C3 (amended): on a concrete tree whose second entry's
object resolution fails (first entry fine), the traversal returns exactly
that error. -/
theorem process_tree_abort_policy_witness :
    process_tree smallRepo
      [(some "a.txt", "oidA", some .blob, .ok .nonTree),
       (some "broken", "oidX", some .blob, .error ⟨"object not found"⟩)] ""
      = .gitErr ⟨"object not found"⟩ ∧
    process_tree failRepo [unnamedEntry] "" = .panicked := by
  constructor
  · refine process_tree_abort_policy.1 smallRepo
      [(some "a.txt", "oidA", some .blob, .ok .nonTree),
       (some "broken", "oidX", some .blob, .error ⟨"object not found"⟩)]
      "" 1 (by decide) ⟨"object not found"⟩ ?_
      (process_entry_err_eq smallRepo "" "broken" "oidX" (some ObjKind.blob)
        ⟨"object not found"⟩)
    intro j hj hlt
    obtain rfl : j = 0 := by omega
    exact ⟨.file "a.txt" "abc123" "add files\n" 1700000000,
      process_entry_file_eq smallRepo "" "a.txt" "oidA" (some ObjKind.blob)
        hunkA [] commitA "add files\n" rfl rfl rfl⟩
  · exact process_tree_abort_policy.2 failRepo "" unnamedEntry [] rfl

/-- Counterexample for C3 as stated: an absent entry name does not cause
the materialization to return a terminal error value — it panics, so the
traversal yields neither an error value nor a node list. -/
theorem process_tree_unnamed_entry_cex :
    process_tree failRepo [unnamedEntry] "" = .panicked ∧
    (process_tree failRepo [unnamedEntry] "").isGitErr = false ∧
    (process_tree failRepo [unnamedEntry] "").isOk = false := by
  have h : process_tree failRepo [unnamedEntry] "" = .panicked :=
    process_tree_cons_panicked_eq failRepo "" unnamedEntry []
      (process_entry_unnamed_eq failRepo "" "badoid" (some ObjKind.blob)
        (.ok .nonTree))
  rw [h]
  exact ⟨rfl, rfl, rfl⟩

/-- C4 (amended): `handle_git` derives the repository path but performs
no repository access at all: it returns the empty success value
unconditionally, whatever the environment holds. -/
theorem handle_git_unconditional_ok :
    ∀ (env : Env) (user name : String), handle_git env user name = .ok () :=
  fun _ _ _ => rfl

/-- Counterexample for C4 as stated: in an environment where opening the
repository at the derived path fails (so a HEAD-peel existence probe
could not succeed), the handler still returns the empty success
response. -/
theorem handle_git_no_probe_cex :
    handle_git envEmpty "alice" "proj" = .ok () ∧
    envEmpty.openBare (reposPath "alice" "proj") =
      .error ⟨"failed to resolve path"⟩ :=
  ⟨rfl, rfl⟩

/-- Order-and-content soundness of the branch-listing loop: a successful
run returns exactly the short names of the yielded branches, in
iteration order. -/
theorem branches_loop_ok_sound :
    ∀ (items : List (Except GitError Branch)) (ns : List String),
      branches_loop items = .ok ns →
      List.Forall₂ (fun item nm => ∃ b, item = .ok b ∧
        b.shortName = .ok (some nm)) items ns := by
  intro items
  induction items with
  | nil =>
    intro ns h
    simp only [branches_loop] at h
    obtain rfl := (RunResult.ok.inj h).symm
    exact .nil
  | cons item rest ih =>
    intro ns h
    cases item with
    | error g => simp [branches_loop] at h
    | ok b =>
      cases hsn : b.shortName with
      | error g => simp [branches_loop, hsn] at h
      | ok o =>
        cases o with
        | none => simp [branches_loop, hsn] at h
        | some n =>
          cases hr : branches_loop rest with
          | gitErr g => simp [branches_loop, hsn, hr] at h
          | panicked => simp [branches_loop, hsn, hr] at h
          | ok ns' =>
            simp only [branches_loop, hsn, hr] at h
            obtain rfl := (RunResult.ok.inj h).symm
            exact .cons ⟨b, rfl, hsn⟩ (ih ns' hr)

/-- C5 (amended): a successful branch listing returns exactly the short
names of ALL the branches yielded by the store (local and
remote-tracking alike), in the store's iteration order, with no sorting
imposed. -/
theorem get_branches_short_names_all (env : Env) (user name : String)
    (ns : List String) (h : get_branches env user name = .ok ns) :
    ∃ repo, env.openBare (reposPath user name) = .ok repo ∧
      List.Forall₂ (fun item nm => ∃ b, item = .ok b ∧
        b.shortName = .ok (some nm)) repo.branchesAll ns := by
  unfold get_branches at h
  cases hopen : env.openBare (reposPath user name) with
  | error g => rw [hopen] at h; simp at h
  | ok repo =>
    rw [hopen] at h
    simp only at h
    exact ⟨repo, rfl, branches_loop_ok_sound _ ns h⟩

/-- Witness for C5 (amended) at the concrete `repoTwoBranches`. -/
theorem get_branches_short_names_all_witness :
    ∃ repo, envTwoBranches.openBare (reposPath "alice" "proj") = .ok repo ∧
      List.Forall₂ (fun item nm => ∃ b, item = .ok b ∧
        b.shortName = .ok (some nm)) repo.branchesAll
        ["main", "origin/main"] :=
  get_branches_short_names_all envTwoBranches "alice" "proj"
    ["main", "origin/main"] rfl

/-- Counterexample for C5 as stated: on a repository with a
remote-tracking branch, `get_branches` returns more than the local
branches' short names, because the source passes `None` (all branches)
as the `branches` filter. -/
theorem get_branches_includes_remote_cex :
    get_branches envTwoBranches "alice" "proj" = .ok ["main", "origin/main"] ∧
    local_branch_short_names repoTwoBranches = ["main"] ∧
    ((["main", "origin/main"] : List String) == ["main"]) = false := by
  refine ⟨rfl, ?_, by decide⟩
  simp [local_branch_short_names, repoTwoBranches]

/-- C6: blob retrieval fails with the not-found outcome class both when
the requested path is absent from the branch's tip tree and when it
resolves to an entry that is not of blob kind; the two causes collapse
to the same outcome at the caller boundary. -/
theorem get_blob_not_found_collapse (env : Env)
    (user name branch path : String) (repo : Repo) (br : Branch)
    (commit : Commit) (entries : List TEntry)
    (hopen : env.openBare (reposPath user name) = .ok repo)
    (hbr : repo.findBranch branch .local = .ok br)
    (hpc : br.peelToCommit = .ok commit)
    (htr : commit.tree = .ok entries)
    (hcause : (∃ g, tree_get_path entries (splitPath path) = .error g) ∨
      (∃ e, tree_get_path entries (splitPath path) = .ok e ∧
        e.kind ≠ some ObjKind.blob)) :
    get_blob env user name branch path = .error .notFound := by
  have hr : ∃ g, read_blob_from_branch repo path branch = .error g := by
    unfold read_blob_from_branch
    rw [hbr]
    simp only
    rw [hpc]
    simp only
    rw [htr]
    simp only
    rcases hcause with ⟨g, hg⟩ | ⟨e, he, hk⟩
    · rw [hg]
      exact ⟨g, rfl⟩
    · rw [he]
      simp only [if_pos hk]
      exact ⟨_, rfl⟩
  obtain ⟨g, hg⟩ := hr
  unfold get_blob
  rw [hopen]
  simp only
  rw [hg]

/-- Witness for C6: on `repoBlobStore`, both a missing path and a path
naming a subdirectory yield the not-found outcome. -/
theorem get_blob_not_found_collapse_witness :
    get_blob envBlob "alice" "proj" "main" "missing.txt" = .error .notFound ∧
    get_blob envBlob "alice" "proj" "main" "dir" = .error .notFound := by
  constructor
  · exact get_blob_not_found_collapse envBlob "alice" "proj" "main"
      "missing.txt" repoBlobStore brMain commitTip tipEntries rfl rfl rfl rfl
      (.inl ⟨⟨"the path does not exist in the given tree"⟩, rfl⟩)
  · exact get_blob_not_found_collapse envBlob "alice" "proj" "main"
      "dir" repoBlobStore brMain commitTip tipEntries rfl rfl rfl rfl
      (.inr ⟨(some "dir", "oidD", some .tree, .ok (.tree [])),
        rfl, by decide⟩)

/-- C7: the path `create_repo` provisions for a (user, name) pair is
`repos/<user>/<name>` with the `.git` extension enforced, and is a pure
function of the pair — the same whatever sequence of other creations ran
before. -/
theorem create_repo_path_deterministic :
    ∀ (prior₁ prior₂ : List (String × String)) (user name : String),
      (create_repo (run_creates [] prior₁) user name).2 =
        (create_repo (run_creates [] prior₂) user name).2 ∧
      (create_repo (run_creates [] prior₁) user name).2 =
        set_extension_git (reposPath user name) :=
  fun _ _ _ _ => ⟨rfl, rfl⟩

/-- C8: the HTTP boundary surfaces exactly two error classes: a git
(object-store) error becomes a server-fault response whose body carries a
human-readable description of the cause, and a not-found outcome (as on
the dumb path for an unreadable file) becomes a generic not-found
response with no body detail. -/
theorem error_boundary_two_classes :
    (∀ e : Error,
      (∃ g, e = .git g ∧
        e.intoResponse = ⟨500, "Something went wrong when: " ++ g.msg⟩) ∨
      (e = .notFound ∧ e.intoResponse = ⟨404, ""⟩)) ∧
    (∀ (env : Env) (user name path : String),
      env.fsRead (pathJoin (reposPath user name) path) = none →
      handle_dumb_protocol env user name path = .error .notFound) := by
  constructor
  · intro e
    cases e with
    | git g => exact .inl ⟨g, rfl, rfl⟩
    | notFound => exact .inr ⟨rfl, rfl⟩
  · intro env user name path h
    simp [handle_dumb_protocol, h]

/-- Witness for C8: the dumb-path handler maps a missing file to the
bodyless not-found outcome in the concrete empty environment. -/
theorem error_boundary_two_classes_witness :
    handle_dumb_protocol envEmpty "alice" "proj" "info/refs" =
      .error .notFound :=
  error_boundary_two_classes.2 envEmpty "alice" "proj" "info/refs" rfl

/-- C9: on a repository holding a file whose blame result has zero hunks
(an empty file), materialization neither returns a node graph nor
returns an error value — the unwrap of blame hunk index 0 panics. -/
theorem fetch_repo_empty_blame_no_outcome :
    fetch_repo envEmptyBlame "alice" "proj" = .panicked ∧
    (fetch_repo envEmptyBlame "alice" "proj").isOk = false ∧
    (fetch_repo envEmptyBlame "alice" "proj").isGitErr = false := by
  have h : fetch_repo envEmptyBlame "alice" "proj" = .panicked :=
    fetch_repo_panicked_eq envEmptyBlame "alice" "proj" emptyBlameRepo
      [(some "empty.txt", "oidE", some ObjKind.blob, .ok .nonTree)] rfl rfl
      (process_tree_cons_panicked_eq emptyBlameRepo "" _ []
        (process_entry_empty_blame_eq emptyBlameRepo "" "empty.txt" "oidE"
          (some ObjKind.blob) rfl))
  rw [h]
  exact ⟨rfl, rfl, rfl⟩

/-- C10: the creation path mapping is not injective — `set_extension`
replaces an existing extension, so `proj` and `proj.txt` provision the
same on-disk path. -/
theorem create_repo_path_not_injective :
    create_repo_path "alice" "proj" = create_repo_path "alice" "proj.txt" ∧
    create_repo_path "alice" "proj" = "repos/alice/proj.git" ∧
    (("proj" : String) == "proj.txt") = false := by
  refine ⟨?_, ?_, by decide⟩ <;> decide

end GitServer
